import Mathlib

/-!
Verification of the real-time audio capture-to-intent pipeline of the
aura-voice-shop repository, as a shallow embedding in Lean 4.

The embedding covers:
* the audio frame pipeline (`convertToInt16PCM`, `resampleAudio` from
  `audioProcessor.ts`), with float samples modelled as rationals and the
  JavaScript rounding function modelled exactly;
* the voice activity detector (`VoiceActivityDetector` from
  `voiceActivityDetector.ts`) as an explicit state machine with an event log;
* the client streaming transport (`WebSocketAudioStreamer` from
  `websocketAudioStreamer.ts`): the reconnection scheduler, the bounded audio
  queue, and the connection-open handler;
* the server session gateway (`GeminiService` from `geminiService.ts`): the
  reconnection handler, session close, and the expiry cleanup sweep, with the
  single-threaded cooperative semantics of the design (each method call runs
  atomically; upstream `close()` invocations are recorded in an explicit log).
-/

namespace AuraVoice

/-! ## Audio frame pipeline (audioProcessor.ts) -/

/-- JavaScript `Math.round`: round half toward positive infinity. -/
def jsRound (q : ℚ) : ℤ := ⌊q + 1/2⌋

/-- One sample of `convertToInt16PCM` (audioProcessor.ts lines 20-31):
`Math.round(Math.max(-1, Math.min(1, x)) * 32767)`. -/
def convertSampleToInt16 (x : ℚ) : ℤ :=
  jsRound (max (-1) (min 1 x) * 32767)

/-- Embeds `convertToInt16PCM`: maps `convertSampleToInt16` over the input samples. -/
def convertToInt16PCM (float32Audio : List ℚ) : List ℤ :=
  float32Audio.map convertSampleToInt16

/-- The resampling ratio `originalSampleRate / targetSampleRate`. -/
def resampleFactor (originalSampleRate targetSampleRate : ℚ) : ℚ :=
  originalSampleRate / targetSampleRate

/-- Embeds `newLength = Math.round(audioData.length / ratio)` in `resampleAudio`. -/
def resampleLength (len : ℕ) (originalSampleRate targetSampleRate : ℚ) : ℕ :=
  (jsRound ((len : ℚ) / resampleFactor originalSampleRate targetSampleRate)).toNat

/-- The source index read for output index `i`:
`index = Math.floor(i * ratio)`. -/
def resampleIndex (i : ℕ) (originalSampleRate targetSampleRate : ℚ) : ℤ :=
  ⌊(i : ℚ) * resampleFactor originalSampleRate targetSampleRate⌋

/-- Embeds `resampleAudio` (audioProcessor.ts lines 37-64): identity when the rates
are equal, otherwise linear interpolation between the two bracketing source
samples, falling back to the single bracketing sample at the tail.
Out-of-range reads (never exercised for positive rates) default to `0`. -/
def resampleAudio (audioData : List ℚ) (originalSampleRate targetSampleRate : ℚ) : List ℚ :=
  if originalSampleRate = targetSampleRate then audioData
  else
    (List.range (resampleLength audioData.length originalSampleRate targetSampleRate)).map
      (fun (i : ℕ) =>
        let ratio := resampleFactor originalSampleRate targetSampleRate
        let position : ℚ := (i : ℚ) * ratio
        let index : ℤ := ⌊position⌋
        let fraction : ℚ := position - index
        if index + 1 < (audioData.length : ℤ) then
          audioData.getD index.toNat 0 * (1 - fraction) +
            audioData.getD (index.toNat + 1) 0 * fraction
        else
          audioData.getD index.toNat 0)

/-! ## Voice activity detector (voiceActivityDetector.ts)

The detector is embedded as an explicit state machine.  Timestamps (used only
for event payloads and for the max-speech-duration timer) are not modelled;
emitted events are recorded in an explicit `events` log.  The periodic noise
update timer is modelled by the external transition `noiseTick`, which the
source timer callback guards with `!this.isSpeechDetected`. -/

/-- The fields of `VADConfig` that the state machine reads.  Times are in
milliseconds; energies in `[0, 1]`. -/
structure VADConfig where
  energyThresholdMultiplier : ℚ
  minSpeechEnergy : ℚ
  maxSpeechEnergy : ℚ
  speechStartThresholdTime : ℚ
  speechEndThresholdTime : ℚ
  noiseAdaptationRate : ℚ
  deriving DecidableEq

/-- Embeds `DEFAULT_VAD_CONFIG` restricted to the modelled fields. -/
def DEFAULT_VAD_CONFIG : VADConfig :=
  { energyThresholdMultiplier := 2
    minSpeechEnergy := 1/100
    maxSpeechEnergy := 1/2
    speechStartThresholdTime := 200
    speechEndThresholdTime := 500
    noiseAdaptationRate := 1/10 }

/-- Events emitted by the detector (payload timestamps and durations are not
modelled). -/
inductive VADEvent where
  | speechStartEvt
  | speechEndEvt
  | audioLevelEvt (level threshold : ℚ)
  deriving DecidableEq

/-- Mutable state of a `VoiceActivityDetector`, with an event log. -/
structure VADState where
  isActive : Bool
  isSpeechDetected : Bool
  backgroundNoiseLevel : ℚ
  currentThreshold : ℚ
  consecutiveFramesAboveThreshold : ℕ
  consecutiveFramesBelowThreshold : ℕ
  recentEnergyLevels : List ℚ
  events : List VADEvent
  deriving DecidableEq

/-- Embeds `ENERGY_HISTORY_SIZE` from the source. -/
def ENERGY_HISTORY_SIZE : ℕ := 50

/-- Embeds `updateThreshold` (voiceActivityDetector.ts lines 584-589):
`currentThreshold = Math.min(maxSpeechEnergy, backgroundNoiseLevel * energyThresholdMultiplier)`.
Note there is no lower clamp in the source. -/
def updateThreshold (cfg : VADConfig) (st : VADState) : VADState :=
  { st with
      currentThreshold :=
        min cfg.maxSpeechEnergy (st.backgroundNoiseLevel * cfg.energyThresholdMultiplier) }

/-- Embeds `initializeNoiseLevel`: sets the noise floor to `minSpeechEnergy` and
recomputes the threshold. -/
def initNoiseLevel (cfg : VADConfig) (st : VADState) : VADState :=
  updateThreshold cfg { st with backgroundNoiseLevel := cfg.minSpeechEnergy }

/-- The state right after `new VoiceActivityDetector(config)`: the field
initializers (`backgroundNoiseLevel = 0.01`, `currentThreshold = 0.02`, all
flags cleared) followed by the constructor call to `initializeNoiseLevel`. -/
def initialVADState (cfg : VADConfig) : VADState :=
  initNoiseLevel cfg
    { isActive := false
      isSpeechDetected := false
      backgroundNoiseLevel := 1/100
      currentThreshold := 1/50
      consecutiveFramesAboveThreshold := 0
      consecutiveFramesBelowThreshold := 0
      recentEnergyLevels := []
      events := [] }

/-- Embeds `startSpeech`: flips to SPEECH, clears the below-counter and emits
`speechStart` (the max-speech-duration timer is not modelled). -/
def startSpeech (cfg : VADConfig) (st : VADState) : VADState :=
  if st.isSpeechDetected = true then st
  else
    { st with isSpeechDetected := true,
              consecutiveFramesBelowThreshold := 0,
              events := st.events ++ [VADEvent.speechStartEvt] }

/-- Embeds `endSpeech`: flips back to IDLE, emits `speechEnd`, then recomputes the
threshold. -/
def endSpeech (cfg : VADConfig) (st : VADState) : VADState :=
  if st.isSpeechDetected = false then st
  else
    updateThreshold cfg
      { st with isSpeechDetected := false,
                events := st.events ++ [VADEvent.speechEndEvt] }

/-- Embeds `start`: activates the detector and clears the speech-detection state. -/
def startVAD (cfg : VADConfig) (st : VADState) : VADState :=
  if st.isActive = true then st
  else
    { st with isActive := true,
              isSpeechDetected := false,
              consecutiveFramesAboveThreshold := 0,
              consecutiveFramesBelowThreshold := 0 }

/-- Embeds `stop`: deactivates the detector and, if speech was in progress, emits
`speechEnd` via `endSpeech`. -/
def stopVAD (cfg : VADConfig) (st : VADState) : VADState :=
  if st.isActive = false then st
  else
    let st1 := { st with isActive := false }
    if st1.isSpeechDetected = true then endSpeech cfg st1 else st1

/-- Embeds `reset` (voiceActivityDetector.ts lines 374-379): `stop()`, then
`initializeNoiseLevel()`, clear the energy history, then `start()`. -/
def resetVAD (cfg : VADConfig) (st : VADState) : VADState :=
  startVAD cfg { initNoiseLevel cfg (stopVAD cfg st) with recentEnergyLevels := [] }

/-- Embeds `adaptToBackgroundNoise` (lines 537-553): exponential adaptation of the
noise floor toward the current energy, clamped from below by
`minSpeechEnergy`, then `updateThreshold`; guarded by `!isSpeechDetected`. -/
def adaptToBackgroundNoise (cfg : VADConfig) (st : VADState) (energyLevel : ℚ) : VADState :=
  if st.isSpeechDetected = true then st
  else
    updateThreshold cfg
      { st with
          backgroundNoiseLevel :=
            max cfg.minSpeechEnergy
              ((1 - cfg.noiseAdaptationRate) * st.backgroundNoiseLevel +
                cfg.noiseAdaptationRate * energyLevel) }

/-- Embeds `updateBackgroundNoiseLevel` (lines 558-579): adapts the noise floor
toward the 30th percentile of the sorted recent-energy window (index
`Math.floor(length * 0.3)`), clamped from below by `minSpeechEnergy`, then
`updateThreshold`; no-op while SPEECH or with an empty window. -/
def updateBackgroundNoiseLevel (cfg : VADConfig) (st : VADState) : VADState :=
  if st.recentEnergyLevels = [] ∨ st.isSpeechDetected = true then st
  else
    let sortedLevels := st.recentEnergyLevels.insertionSort (fun a b => a ≤ b)
    let percentileIndex := 3 * sortedLevels.length / 10
    let percentileValue := sortedLevels.getD percentileIndex 0
    updateThreshold cfg
      { st with
          backgroundNoiseLevel :=
            max cfg.minSpeechEnergy
              ((1 - cfg.noiseAdaptationRate) * st.backgroundNoiseLevel +
                cfg.noiseAdaptationRate * percentileValue) }

/-- The periodic noise-update timer callback (lines 506-510): runs
`updateBackgroundNoiseLevel` only while no speech is detected. -/
def noiseTick (cfg : VADConfig) (st : VADState) : VADState :=
  if st.isSpeechDetected = false then updateBackgroundNoiseLevel cfg st else st

/-- Embeds `updateEnergyHistory` (lines 526-532): pushes the sample and drops the
oldest once the window exceeds `ENERGY_HISTORY_SIZE`. -/
def updateEnergyHistory (st : VADState) (energyLevel : ℚ) : VADState :=
  let h := st.recentEnergyLevels ++ [energyLevel]
  { st with recentEnergyLevels := if ENERGY_HISTORY_SIZE < h.length then h.drop 1 else h }

/-- Embeds `handleEnergyAboveThreshold` (lines 410-419): the frame duration is the
hard-coded `20` ms of the source. -/
def handleEnergyAboveThreshold (cfg : VADConfig) (st : VADState) : VADState :=
  let st1 := { st with
    consecutiveFramesAboveThreshold := st.consecutiveFramesAboveThreshold + 1,
    consecutiveFramesBelowThreshold := 0 }
  if st1.isSpeechDetected = false ∧
      cfg.speechStartThresholdTime ≤ ((st1.consecutiveFramesAboveThreshold * 20 : ℕ) : ℚ) then
    startSpeech cfg st1
  else st1

/-- Embeds `handleEnergyBelowThreshold` (lines 424-438). -/
def handleEnergyBelowThreshold (cfg : VADConfig) (st : VADState) (energyLevel : ℚ) : VADState :=
  let st1 := { st with consecutiveFramesAboveThreshold := 0 }
  if st1.isSpeechDetected = true then
    let st2 := { st1 with
      consecutiveFramesBelowThreshold := st1.consecutiveFramesBelowThreshold + 1 }
    if cfg.speechEndThresholdTime ≤ ((st2.consecutiveFramesBelowThreshold * 20 : ℕ) : ℚ) then
      endSpeech cfg st2
    else st2
  else adaptToBackgroundNoise cfg st1 energyLevel

/-- Embeds `processAudioFrame` (lines 384-405) from the point where
`energyLevel = calculateAudioLevel(audioData)` has been computed: updates the
energy history, emits `audioLevel{level, threshold}`, and dispatches on
`energyLevel >= currentThreshold`. -/
def processEnergyLevel (cfg : VADConfig) (st : VADState) (energyLevel : ℚ) : VADState :=
  if st.isActive = false then st
  else
    let st1 := updateEnergyHistory st energyLevel
    let st2 := { st1 with
      events := st1.events ++ [VADEvent.audioLevelEvt energyLevel st1.currentThreshold] }
    if st2.currentThreshold ≤ energyLevel then handleEnergyAboveThreshold cfg st2
    else handleEnergyBelowThreshold cfg st2 energyLevel

/-- Number of `speechStart` events in a detector's log. -/
def countSpeechStart (st : VADState) : ℕ :=
  st.events.count VADEvent.speechStartEvt

/-- The invariant the code actually maintains: the threshold equals
`min(maxSpeechEnergy, backgroundNoiseLevel * multiplier)` (upper clamp only)
and the noise floor never falls below `minSpeechEnergy`. -/
def thresholdInvariant (cfg : VADConfig) (st : VADState) : Prop :=
  st.currentThreshold =
    min cfg.maxSpeechEnergy (st.backgroundNoiseLevel * cfg.energyThresholdMultiplier) ∧
  cfg.minSpeechEnergy ≤ st.backgroundNoiseLevel

/-! ## Client streaming transport (websocketAudioStreamer.ts) -/

/-- The fields of `AudioStreamerConfig` that the modelled operations read. -/
structure AudioStreamerConfig where
  maxReconnectAttempts : ℕ
  reconnectBaseDelay : ℕ
  maxReconnectDelay : ℕ
  maxQueueSize : ℕ
  deriving DecidableEq

/-- Embeds `DEFAULT_STREAMER_CONFIG` restricted to the modelled fields. -/
def DEFAULT_STREAMER_CONFIG : AudioStreamerConfig :=
  { maxReconnectAttempts := 5
    reconnectBaseDelay := 1000
    maxReconnectDelay := 30000
    maxQueueSize := 100 }

/-- Outcome of one reconnection-scheduling call.  `retry n d` means the
attempt counter becomes `n`, a `reconnecting` notification is emitted, and a
new connection attempt is scheduled after `d` milliseconds; `giveUp a` means
the terminal max-attempts error is emitted and nothing further is
scheduled. -/
inductive ReconnectDecision where
  | retry (newAttempts delay : ℕ)
  | giveUp (attempts : ℕ)
  deriving DecidableEq

/-- Embeds `scheduleReconnect` (websocketAudioStreamer.ts lines 255-289) as a
function of the current `reconnectAttempts` counter:
guard `reconnectAttempts >= maxReconnectAttempts` emits the terminal error,
otherwise the counter is incremented and the delay is
`Math.min(reconnectBaseDelay * 2^(attempts-1), maxReconnectDelay)` for the
incremented counter value `attempts`. -/
def scheduleReconnect (cfg : AudioStreamerConfig) (reconnectAttempts : ℕ) : ReconnectDecision :=
  if cfg.maxReconnectAttempts ≤ reconnectAttempts then
    ReconnectDecision.giveUp reconnectAttempts
  else
    ReconnectDecision.retry (reconnectAttempts + 1)
      (min (cfg.reconnectBaseDelay * 2 ^ reconnectAttempts) cfg.maxReconnectDelay)

/-! ## Server session gateway reconnection (geminiService.ts) -/

/-- Embeds `RECONNECT_MAX_ATTEMPTS` from geminiService.ts. -/
def RECONNECT_MAX_ATTEMPTS : ℕ := 5

/-- Embeds `RECONNECT_BASE_DELAY_MS` from geminiService.ts. -/
def RECONNECT_BASE_DELAY_MS : ℕ := 1000

/-- Embeds `handleReconnection` (geminiService.ts lines 337-374) as a function of
the session's current reconnect-attempt counter: at or above
`RECONNECT_MAX_ATTEMPTS` the session is marked ERROR and `SESSION_EXPIRED`
is emitted (`giveUp`); otherwise the delay is
`RECONNECT_BASE_DELAY_MS * Math.pow(2, attempts)` — with **no** upper cap —
and the counter is incremented before the delayed retry. -/
def handleReconnection (attempts : ℕ) : ReconnectDecision :=
  if RECONNECT_MAX_ATTEMPTS ≤ attempts then
    ReconnectDecision.giveUp attempts
  else
    ReconnectDecision.retry (attempts + 1) (RECONNECT_BASE_DELAY_MS * 2 ^ attempts)

/-- Embeds `queueAudioChunk` (websocketAudioStreamer.ts lines 481-497): when the
queue has reached `maxQueueSize`, the oldest chunk is shifted off before the
new chunk is pushed. -/
def queueAudioChunk {α : Type} (maxQueueSize : ℕ) (audioQueue : List α) (chunk : α) : List α :=
  if maxQueueSize ≤ audioQueue.length then audioQueue.drop 1 ++ [chunk]
  else audioQueue ++ [chunk]

/-- Events emitted by the client transport (payloads not modelled). -/
inductive StreamerEvent where
  | openEvt
  | closeEvt
  | errorEvt
  | reconnectingEvt (attempt delay : ℕ)
  | reconnectedEvt
  | backpressureEvt (active : Bool)
  deriving DecidableEq

/-- The transport state touched by `handleConnectionOpen`: connection flag,
attempt counter, backpressure flag, the chunk queue, the chunks sent so far,
and the emitted-event log. -/
structure StreamerState where
  isConnected : Bool
  reconnectAttempts : ℕ
  backpressure : Bool
  audioQueue : List ℕ
  sentChunks : List ℕ
  events : List StreamerEvent
  deriving DecidableEq

/-- Embeds `processQueue` (websocketAudioStreamer.ts lines 502-553) under nominal
connectivity: when connected and not under backpressure it sends the queued
chunks in order and empties the queue; otherwise it returns immediately. -/
def processQueue (st : StreamerState) : StreamerState :=
  if st.isConnected = true ∧ st.backpressure = false then
    { st with sentChunks := st.sentChunks ++ st.audioQueue, audioQueue := [] }
  else st

/-- Embeds `handleConnectionOpen` (websocketAudioStreamer.ts lines 209-226): sets
the connected flag, resets `reconnectAttempts` to 0, drains the queue, emits
`open`, and only then tests `reconnectAttempts > 0` to decide whether to
emit `reconnected`. -/
def handleConnectionOpen (st : StreamerState) : StreamerState :=
  let st1 := { st with isConnected := true, reconnectAttempts := 0 }
  let st2 := processQueue st1
  let st3 := { st2 with events := st2.events ++ [StreamerEvent.openEvt] }
  if 0 < st3.reconnectAttempts then
    { st3 with events := st3.events ++ [StreamerEvent.reconnectedEvt] }
  else st3

/-! ## Server session gateway lifecycle (geminiService.ts)

`GeminiService` keys its three maps (`sessions`, `geminiSessions`,
`reconnectAttempts`) by session id.  The JavaScript `Map`s are embedded as
association lists; `Map.get / Map.set / Map.delete` become `lookupA / setA /
eraseA`.  Calls run under the single-threaded cooperative semantics of the
design: each method call is one atomic transition.  Invocations of the
upstream handle's `close()` are recorded in the `closeCalls` log, so
"`close()` is called exactly once on handle `h`" is "`h` occurs exactly once
more in `closeCalls`". -/

/-- Embeds `SessionState` from voice.types.ts. -/
inductive SessionState where
  | INITIALIZING
  | ACTIVE
  | ERROR
  | CLOSED
  deriving DecidableEq

/-- The `Session` fields the lifecycle logic reads (clientInfo omitted). -/
structure Session where
  state : SessionState
  createdAt : ℕ
  updatedAt : ℕ
  expiresAt : ℕ
  deriving DecidableEq

/-- Embeds `Map.get`: the value at the first matching key, if any. -/
def lookupA {α : Type} : List (String × α) → String → Option α
  | [], _ => none
  | (k2, v) :: rest, k => if k2 = k then some v else lookupA rest k

/-- Embeds `Map.delete`: removes the entries with the given key. -/
def eraseA {α : Type} : List (String × α) → String → List (String × α)
  | [], _ => []
  | (k2, v) :: rest, k =>
      if k2 = k then eraseA rest k else (k2, v) :: eraseA rest k

/-- Embeds `Map.set`: replaces the value at an existing key in place, appending a
fresh entry otherwise. -/
def setA {α : Type} : List (String × α) → String → α → List (String × α)
  | [], k, v => [(k, v)]
  | (k2, v2) :: rest, k, v =>
      if k2 = k then (k, v) :: rest else (k2, v2) :: setA rest k v

/-- The gateway state: the session registry, the upstream handle map
(handles named by numbers), the per-session reconnect counters, and the log
of upstream `close()` invocations. -/
structure GatewayState where
  sessions : List (String × Session)
  geminiSessions : List (String × ℕ)
  reconnectAttempts : List (String × ℕ)
  closeCalls : List ℕ
  deriving DecidableEq

/-- Embeds `closeSession` (geminiService.ts lines 508-534) as one atomic call at
time `now`: a missing session returns immediately; otherwise the upstream
handle — when present — is closed (logged) and dropped from
`geminiSessions`, the session is marked CLOSED, and the reconnect counter is
deleted. -/
def closeSession (st : GatewayState) (sessionId : String) (now : ℕ) : GatewayState :=
  match lookupA st.sessions sessionId with
  | none => st
  | some session =>
    let st1 :=
      match lookupA st.geminiSessions sessionId with
      | some handle =>
          { st with closeCalls := st.closeCalls ++ [handle],
                    geminiSessions := eraseA st.geminiSessions sessionId }
      | none => st
    let st2 := { st1 with
      sessions := setA st1.sessions sessionId
        { session with state := SessionState.CLOSED, updatedAt := now } }
    { st2 with reconnectAttempts := eraseA st2.reconnectAttempts sessionId }

/-- The body of the sweep loop in `cleanupExpiredSessions` for one registry
entry: `if (session.expiresAt < now) { closeSession(sessionId); sessions.delete(sessionId); }`. -/
def sweepStep (now : ℕ) (acc : GatewayState) (entry : String × Session) : GatewayState :=
  if entry.2.expiresAt < now then
    let acc1 := closeSession acc entry.1 now
    { acc1 with sessions := eraseA acc1.sessions entry.1 }
  else acc

/-- Embeds `cleanupExpiredSessions` (geminiService.ts lines 555-565): one sweep tick
at time `now` over the registry entries, closing and deleting every session
whose `expiresAt` is strictly in the past.  The source iterates the live
`Map` while deleting only the entry under iteration, which visits exactly
the entries present when the sweep starts — the fold below. -/
def cleanupExpiredSessions (st : GatewayState) (now : ℕ) : GatewayState :=
  st.sessions.foldl (sweepStep now) st

/-- No session other than `sid` holds the upstream handle `h`. -/
def gemAvoids (g : List (String × ℕ)) (sid : String) (h : ℕ) : Prop :=
  ∀ k v, k ≠ sid → lookupA g k = some v → v ≠ h

/-- Facts holding before the sweep reaches `sid`'s registry entry. -/
def preFacts (sid : String) (s : Session) (h c0 : ℕ) (acc : GatewayState) : Prop :=
  lookupA acc.sessions sid = some s ∧
  lookupA acc.geminiSessions sid = some h ∧
  acc.closeCalls.count h = c0 ∧
  gemAvoids acc.geminiSessions sid h

/-- Facts holding after the sweep has processed `sid`'s registry entry. -/
def postFacts (sid : String) (h c0 : ℕ) (acc : GatewayState) : Prop :=
  lookupA acc.sessions sid = none ∧
  lookupA acc.geminiSessions sid = none ∧
  acc.closeCalls.count h = c0 ∧
  gemAvoids acc.geminiSessions sid h

end AuraVoice

namespace AuraVoice

/-! ## Supporting lemmas -/

/-! ### Audio pipeline lemmas -/

theorem jsRound_le {q : ℚ} {b : ℤ} (h : q ≤ b) : jsRound q ≤ b := by
  have h2 : q + 1/2 < ((b + 1 : ℤ) : ℚ) := by push_cast; linarith
  exact Int.lt_add_one_iff.mp (Int.floor_lt.mpr h2)

theorem le_jsRound {q : ℚ} {b : ℤ} (h : (b : ℚ) ≤ q) : b ≤ jsRound q := by
  have : (b : ℚ) ≤ q + 1/2 := by linarith
  exact Int.le_floor.mpr this

theorem resampleLength_pos_step {L : ℕ} {r : ℚ} (hr : 0 < r) {i : ℕ}
    (hi : i < ((jsRound ((L : ℚ) / r)).toNat)) :
    ((i : ℚ) * r) < L := by
  have hjs : (0 : ℤ) < jsRound ((L : ℚ) / r) := by
    by_contra hle
    push_neg at hle
    have : (jsRound ((L : ℚ) / r)).toNat = 0 := Int.toNat_eq_zero.mpr hle
    omega
  have hiz : (i : ℤ) < jsRound ((L : ℚ) / r) := by
    have := Int.toNat_of_nonneg hjs.le
    omega
  have hle2 : ((i : ℤ) + 1 : ℚ) ≤ (L : ℚ) / r + 1/2 := by
    have h1 : (i : ℤ) + 1 ≤ jsRound ((L : ℚ) / r) := hiz
    have h2 := Int.le_floor.mp h1
    push_cast at h2 ⊢
    linarith
  have hrne : r ≠ 0 := hr.ne'
  have hfrac : ((L : ℚ) / r) * r = (L : ℚ) := by field_simp
  have : (i : ℚ) * r ≤ (L : ℚ) - r / 2 := by
    have hmul : ((i : ℚ) + 1/2) * r ≤ ((L : ℚ) / r) * r := by
      apply mul_le_mul_of_nonneg_right _ hr.le
      push_cast at hle2 ⊢
      linarith
    rw [hfrac] at hmul
    nlinarith
  linarith

/-! ### VAD invariant lemmas -/

theorem updateThreshold_bg (cfg : VADConfig) (st : VADState) :
    (updateThreshold cfg st).backgroundNoiseLevel = st.backgroundNoiseLevel := rfl

theorem inv_updateThreshold (cfg : VADConfig) (st : VADState)
    (h : cfg.minSpeechEnergy ≤ st.backgroundNoiseLevel) :
    thresholdInvariant cfg (updateThreshold cfg st) := by
  exact ⟨rfl, h⟩

theorem inv_initNoiseLevel (cfg : VADConfig) (st : VADState) :
    thresholdInvariant cfg (initNoiseLevel cfg st) :=
  inv_updateThreshold cfg _ le_rfl

theorem inv_startSpeech (cfg : VADConfig) (st : VADState)
    (h : thresholdInvariant cfg st) : thresholdInvariant cfg (startSpeech cfg st) := by
  unfold startSpeech
  split <;> exact h

theorem inv_endSpeech (cfg : VADConfig) (st : VADState)
    (h : thresholdInvariant cfg st) : thresholdInvariant cfg (endSpeech cfg st) := by
  unfold endSpeech
  split
  · exact h
  · exact inv_updateThreshold cfg _ h.2

theorem inv_startVAD (cfg : VADConfig) (st : VADState)
    (h : thresholdInvariant cfg st) : thresholdInvariant cfg (startVAD cfg st) := by
  unfold startVAD
  split <;> exact h

theorem inv_stopVAD (cfg : VADConfig) (st : VADState)
    (h : thresholdInvariant cfg st) : thresholdInvariant cfg (stopVAD cfg st) := by
  unfold stopVAD
  dsimp only
  split
  · exact h
  · split
    · exact inv_endSpeech cfg _ h
    · exact h

theorem inv_resetVAD (cfg : VADConfig) (st : VADState) :
    thresholdInvariant cfg (resetVAD cfg st) := by
  unfold resetVAD
  apply inv_startVAD
  exact inv_initNoiseLevel cfg _

theorem inv_adaptToBackgroundNoise (cfg : VADConfig) (st : VADState) (e : ℚ)
    (h : thresholdInvariant cfg st) :
    thresholdInvariant cfg (adaptToBackgroundNoise cfg st e) := by
  unfold adaptToBackgroundNoise
  split
  · exact h
  · exact inv_updateThreshold cfg _ (le_max_left _ _)

theorem inv_updateBackgroundNoiseLevel (cfg : VADConfig) (st : VADState)
    (h : thresholdInvariant cfg st) :
    thresholdInvariant cfg (updateBackgroundNoiseLevel cfg st) := by
  unfold updateBackgroundNoiseLevel
  split
  · exact h
  · exact inv_updateThreshold cfg _ (le_max_left _ _)

theorem inv_noiseTick (cfg : VADConfig) (st : VADState)
    (h : thresholdInvariant cfg st) : thresholdInvariant cfg (noiseTick cfg st) := by
  unfold noiseTick
  split
  · exact inv_updateBackgroundNoiseLevel cfg _ h
  · exact h

theorem inv_updateEnergyHistory (cfg : VADConfig) (st : VADState) (e : ℚ)
    (h : thresholdInvariant cfg st) : thresholdInvariant cfg (updateEnergyHistory st e) := by
  unfold updateEnergyHistory
  exact h

theorem inv_handleEnergyAboveThreshold (cfg : VADConfig) (st : VADState)
    (h : thresholdInvariant cfg st) :
    thresholdInvariant cfg (handleEnergyAboveThreshold cfg st) := by
  unfold handleEnergyAboveThreshold
  dsimp only
  split
  · exact inv_startSpeech cfg _ h
  · exact h

theorem inv_handleEnergyBelowThreshold (cfg : VADConfig) (st : VADState) (e : ℚ)
    (h : thresholdInvariant cfg st) :
    thresholdInvariant cfg (handleEnergyBelowThreshold cfg st e) := by
  unfold handleEnergyBelowThreshold
  dsimp only
  split
  · split
    · exact inv_endSpeech cfg _ h
    · exact h
  · exact inv_adaptToBackgroundNoise cfg _ e h

theorem inv_processEnergyLevel (cfg : VADConfig) (st : VADState) (e : ℚ)
    (h : thresholdInvariant cfg st) :
    thresholdInvariant cfg (processEnergyLevel cfg st e) := by
  unfold processEnergyLevel
  dsimp only
  split
  · exact h
  · split
    · exact inv_handleEnergyAboveThreshold cfg _ (inv_updateEnergyHistory cfg _ e h)
    · exact inv_handleEnergyBelowThreshold cfg _ e (inv_updateEnergyHistory cfg _ e h)

theorem endSpeech_bg (cfg : VADConfig) (st : VADState) :
    (endSpeech cfg st).backgroundNoiseLevel = st.backgroundNoiseLevel := by
  unfold endSpeech
  split <;> rfl

theorem startSpeech_bg (cfg : VADConfig) (st : VADState) :
    (startSpeech cfg st).backgroundNoiseLevel = st.backgroundNoiseLevel := by
  unfold startSpeech
  split <;> rfl

theorem C8_step (cfg : VADConfig) (st : VADState)
    (hact : st.isActive = true) (hsp : st.isSpeechDetected = false)
    (htime : cfg.speechStartThresholdTime = 200)
    (hth : st.currentThreshold ≤ 1/2) :
    (st.consecutiveFramesAboveThreshold + 1 < 10 →
      (processEnergyLevel cfg st (1/2)).isActive = true ∧
      (processEnergyLevel cfg st (1/2)).isSpeechDetected = false ∧
      (processEnergyLevel cfg st (1/2)).consecutiveFramesAboveThreshold =
        st.consecutiveFramesAboveThreshold + 1 ∧
      (processEnergyLevel cfg st (1/2)).currentThreshold = st.currentThreshold ∧
      countSpeechStart (processEnergyLevel cfg st (1/2)) = countSpeechStart st) ∧
    (10 ≤ st.consecutiveFramesAboveThreshold + 1 →
      (processEnergyLevel cfg st (1/2)).isSpeechDetected = true ∧
      countSpeechStart (processEnergyLevel cfg st (1/2)) = countSpeechStart st + 1) := by
  have hth2 : st.currentThreshold ≤ 2⁻¹ := by
    calc st.currentThreshold ≤ 1/2 := hth
      _ = 2⁻¹ := by norm_num
  constructor
  · intro hlt
    have hg : ¬ ((200 : ℚ) ≤ ((st.consecutiveFramesAboveThreshold : ℚ) + 1) * 20) := by
      have h9 : (st.consecutiveFramesAboveThreshold : ℚ) + 1 ≤ 9 := by
        have hn : st.consecutiveFramesAboveThreshold + 1 ≤ 9 := by omega
        exact_mod_cast hn
      intro hc
      nlinarith
    simp [processEnergyLevel, updateEnergyHistory, handleEnergyAboveThreshold,
      startSpeech, countSpeechStart, hact, hsp, htime, hth2, hg, List.count_append]
  · intro hge
    have hg : (200 : ℚ) ≤ ((st.consecutiveFramesAboveThreshold : ℚ) + 1) * 20 := by
      have h10 : (10 : ℚ) ≤ (st.consecutiveFramesAboveThreshold : ℚ) + 1 := by
        exact_mod_cast hge
      linarith
    simp [processEnergyLevel, updateEnergyHistory, handleEnergyAboveThreshold,
      startSpeech, countSpeechStart, hact, hsp, htime, hth2, hg, List.count_append]

theorem C8_run (cfg : VADConfig) (st : VADState)
    (hact : st.isActive = true) (hsp : st.isSpeechDetected = false)
    (habove : st.consecutiveFramesAboveThreshold = 0)
    (htime : cfg.speechStartThresholdTime = 200)
    (hth : st.currentThreshold < 1/2) :
    ∀ k, k ≤ 9 →
      ((fun s => processEnergyLevel cfg s (1/2))^[k] st).isActive = true ∧
      ((fun s => processEnergyLevel cfg s (1/2))^[k] st).isSpeechDetected = false ∧
      ((fun s => processEnergyLevel cfg s (1/2))^[k] st).consecutiveFramesAboveThreshold = k ∧
      ((fun s => processEnergyLevel cfg s (1/2))^[k] st).currentThreshold = st.currentThreshold ∧
      countSpeechStart ((fun s => processEnergyLevel cfg s (1/2))^[k] st) = countSpeechStart st := by
  intro k
  induction k with
  | zero =>
    intro _
    exact ⟨hact, hsp, habove, rfl, rfl⟩
  | succ n ih =>
    intro hk
    obtain ⟨h1, h2, h3, h4, h5⟩ := ih (by omega)
    rw [Function.iterate_succ_apply']
    have hstep := C8_step cfg _ h1 h2 htime (h4 ▸ hth.le)
    obtain ⟨l1, l2, l3, l4, l5⟩ := hstep.1 (by omega)
    exact ⟨l1, l2, by rw [l3, h3], by rw [l4, h4], by rw [l5, h5]⟩

theorem queueAudioChunk_length {α : Type} (N : ℕ) (hN : 1 ≤ N)
    (q : List α) (c : α) (h : q.length ≤ N) :
    (queueAudioChunk N q c).length ≤ N := by
  unfold queueAudioChunk
  split
  · rename_i hfull
    simp only [List.length_append, List.length_drop, List.length_singleton]
    omega
  · rename_i hroom
    simp only [List.length_append, List.length_singleton]
    omega

theorem queueAudioChunk_fill {α : Type} (N : ℕ) :
    ∀ (cs : List α) (q : List α), q.length + cs.length ≤ N →
      cs.foldl (queueAudioChunk N) q = q ++ cs := by
  intro cs
  induction cs with
  | nil => intro q _; simp
  | cons c rest ih =>
    intro q hlen
    simp only [List.foldl_cons]
    have hq : ¬ (N ≤ q.length) := by simp at hlen; omega
    rw [show queueAudioChunk N q c = q ++ [c] from by unfold queueAudioChunk; rw [if_neg hq]]
    rw [ih (q ++ [c]) (by simp at hlen ⊢; omega)]
    simp

/-! ### Association list lemmas -/

theorem lookupA_mem {α : Type} {l : List (String × α)} {k : String} {v : α}
    (h : lookupA l k = some v) : (k, v) ∈ l := by
  induction l with
  | nil => simp [lookupA] at h
  | cons p rest ih =>
    obtain ⟨k2, v2⟩ := p
    by_cases hk : k2 = k
    · subst hk
      simp [lookupA] at h
      simp [h]
    · simp [lookupA, hk] at h
      simp [ih h]

theorem lookupA_eraseA_ne {α : Type} (l : List (String × α)) (k k2 : String)
    (h : k2 ≠ k) : lookupA (eraseA l k) k2 = lookupA l k2 := by
  induction l with
  | nil => rfl
  | cons p rest ih =>
    obtain ⟨k3, v3⟩ := p
    by_cases hk : k3 = k
    · have hne : ¬ (k = k2) := fun hc => h hc.symm
      simp [eraseA, lookupA, hk, hne, ih]
    · by_cases hk2 : k3 = k2 <;> simp [eraseA, lookupA, hk, hk2, h, ih]

theorem lookupA_eraseA_self {α : Type} (l : List (String × α)) (k : String) :
    lookupA (eraseA l k) k = none := by
  induction l with
  | nil => rfl
  | cons p rest ih =>
    obtain ⟨k3, v3⟩ := p
    by_cases hk : k3 = k
    · simp [eraseA, hk, ih]
    · simp [eraseA, lookupA, hk, ih]

theorem lookupA_setA_ne {α : Type} (l : List (String × α)) (k k2 : String) (v : α)
    (h : k2 ≠ k) : lookupA (setA l k v) k2 = lookupA l k2 := by
  induction l with
  | nil =>
    have hne : ¬ (k = k2) := fun hc => h hc.symm
    simp [setA, lookupA, hne]
  | cons p rest ih =>
    obtain ⟨k3, v3⟩ := p
    by_cases hk : k3 = k
    · have hne1 : ¬ (k = k2) := fun hc => h hc.symm
      simp [setA, lookupA, hk, hne1]
    · by_cases hk2 : k3 = k2 <;> simp [setA, lookupA, hk, hk2, h, ih]

theorem lookupA_eraseA_some {α : Type} {l : List (String × α)} {k k2 : String} {v : α}
    (hl : lookupA (eraseA l k) k2 = some v) : lookupA l k2 = some v := by
  by_cases hk : k2 = k
  · rw [hk, lookupA_eraseA_self] at hl
    exact Option.noConfusion hl
  · rwa [lookupA_eraseA_ne _ _ _ hk] at hl

theorem lookupA_eraseA_of_none {α : Type} {l : List (String × α)} {k2 : String}
    (k : String) (hl : lookupA l k2 = none) : lookupA (eraseA l k) k2 = none := by
  by_cases hk : k2 = k
  · rw [hk, lookupA_eraseA_self]
  · rwa [lookupA_eraseA_ne _ _ _ hk]

theorem gemAvoids_eraseA {g : List (String × ℕ)} {sid : String} {h : ℕ} (k : String)
    (hg : gemAvoids g sid h) : gemAvoids (eraseA g k) sid h :=
  fun k2 v hk2 hlk => hg k2 v hk2 (lookupA_eraseA_some hlk)

theorem gemAvoids_of_nodup {g : List (String × ℕ)} {sid : String} {h : ℕ}
    (hnodup : (g.map Prod.snd).Nodup) (hg : lookupA g sid = some h) :
    gemAvoids g sid h := by
  intro k v hk hlk hvh
  rw [hvh] at hlk
  have hm1 : (k, h) ∈ g := lookupA_mem hlk
  have hm2 : (sid, h) ∈ g := lookupA_mem hg
  have := List.inj_on_of_nodup_map hnodup hm1 hm2 rfl
  exact hk (congrArg Prod.fst this)

theorem lookupA_split {α : Type} {l : List (String × α)} {k : String} {v : α}
    (h : lookupA l k = some v) :
    ∃ pre post, l = pre ++ (k, v) :: post ∧ ∀ e ∈ pre, e.1 ≠ k := by
  induction l with
  | nil => exact Option.noConfusion h
  | cons p rest ih =>
    obtain ⟨k2, v2⟩ := p
    by_cases hk : k2 = k
    · have hv : v2 = v := by
        rw [show lookupA ((k2, v2) :: rest) k = some v2 from by simp [lookupA, hk]] at h
        exact Option.some.inj h
      refine ⟨[], rest, ?_, by simp⟩
      rw [hk, hv]
      rfl
    · rw [show lookupA ((k2, v2) :: rest) k = lookupA rest k from by simp [lookupA, hk]] at h
      obtain ⟨pre, post, hd, hp⟩ := ih h
      refine ⟨(k2, v2) :: pre, post, by rw [hd]; rfl, ?_⟩
      intro e he
      rcases List.mem_cons.mp he with he1 | he2
      · rw [he1]
        exact hk
      · exact hp e he2

theorem sweepStep_preserve_pre {now : ℕ} {sid : String} {s : Session} {h c0 : ℕ}
    {acc : GatewayState} {entry : String × Session} (hne : entry.1 ≠ sid)
    (hf : preFacts sid s h c0 acc) :
    preFacts sid s h c0 (sweepStep now acc entry) := by
  obtain ⟨h1, h2, h3, h4⟩ := hf
  have hne2 : sid ≠ entry.1 := fun hc => hne hc.symm
  unfold sweepStep
  by_cases hexp : entry.2.expiresAt < now
  · rw [if_pos hexp]
    unfold closeSession
    cases hs : lookupA acc.sessions entry.1 with
    | none =>
      refine ⟨?_, h2, h3, h4⟩
      dsimp only
      rw [lookupA_eraseA_ne _ _ _ hne2]
      exact h1
    | some sess =>
      cases hg : lookupA acc.geminiSessions entry.1 with
      | none =>
        dsimp only
        refine ⟨?_, h2, h3, h4⟩
        rw [lookupA_eraseA_ne _ _ _ hne2, lookupA_setA_ne _ _ _ _ hne2]
        exact h1
      | some hd =>
        dsimp only
        have hdh : hd ≠ h := h4 entry.1 hd hne hg
        refine ⟨?_, ?_, ?_, ?_⟩
        · rw [lookupA_eraseA_ne _ _ _ hne2, lookupA_setA_ne _ _ _ _ hne2]
          exact h1
        · rw [lookupA_eraseA_ne _ _ _ hne2]
          exact h2
        · have hcnt : List.count h [hd] = 0 :=
            List.count_eq_zero.mpr (by
              simp only [List.mem_singleton]
              exact fun hc => hdh hc.symm)
          simp [List.count_append, h3, hcnt]
        · exact gemAvoids_eraseA entry.1 h4
  · rw [if_neg hexp]
    exact ⟨h1, h2, h3, h4⟩

theorem sweepStep_preserve_post {now : ℕ} {sid : String} {h c0 : ℕ}
    {acc : GatewayState} {entry : String × Session}
    (hf : postFacts sid h c0 acc) :
    postFacts sid h c0 (sweepStep now acc entry) := by
  obtain ⟨h1, h2, h3, h4⟩ := hf
  unfold sweepStep
  by_cases hexp : entry.2.expiresAt < now
  · rw [if_pos hexp]
    unfold closeSession
    cases hs : lookupA acc.sessions entry.1 with
    | none =>
      refine ⟨?_, h2, h3, h4⟩
      dsimp only
      exact lookupA_eraseA_of_none entry.1 h1
    | some sess =>
      have hne : entry.1 ≠ sid := by
        intro hE
        rw [hE, h1] at hs
        exact Option.noConfusion hs
      have hne2 : sid ≠ entry.1 := fun hc => hne hc.symm
      cases hg : lookupA acc.geminiSessions entry.1 with
      | none =>
        dsimp only
        refine ⟨?_, h2, h3, h4⟩
        apply lookupA_eraseA_of_none
        rw [lookupA_setA_ne _ _ _ _ hne2]
        exact h1
      | some hd =>
        dsimp only
        have hdh : hd ≠ h := h4 entry.1 hd hne hg
        refine ⟨?_, ?_, ?_, ?_⟩
        · apply lookupA_eraseA_of_none
          rw [lookupA_setA_ne _ _ _ _ hne2]
          exact h1
        · exact lookupA_eraseA_of_none entry.1 h2
        · have hcnt : List.count h [hd] = 0 :=
            List.count_eq_zero.mpr (by
              simp only [List.mem_singleton]
              exact fun hc => hdh hc.symm)
          simp [List.count_append, h3, hcnt]
        · exact gemAvoids_eraseA entry.1 h4
  · rw [if_neg hexp]
    exact ⟨h1, h2, h3, h4⟩

theorem sweepStep_fire {now : ℕ} {sid : String} {s : Session} {h c0 : ℕ}
    {acc : GatewayState} (hexp : s.expiresAt < now)
    (hf : preFacts sid s h c0 acc) :
    postFacts sid h (c0 + 1) (sweepStep now acc (sid, s)) := by
  obtain ⟨h1, h2, h3, h4⟩ := hf
  unfold sweepStep
  rw [if_pos hexp]
  unfold closeSession
  rw [show (sid, s).1 = sid from rfl, h1, h2]
  dsimp only
  refine ⟨?_, ?_, ?_, ?_⟩
  · exact lookupA_eraseA_self _ sid
  · exact lookupA_eraseA_self _ sid
  · simp [List.count_append, h3]
  · exact gemAvoids_eraseA sid h4

theorem foldl_preserve_pre {now : ℕ} {sid : String} {s : Session} {h c0 : ℕ} :
    ∀ (l : List (String × Session)) (acc : GatewayState),
      (∀ e ∈ l, e.1 ≠ sid) → preFacts sid s h c0 acc →
      preFacts sid s h c0 (l.foldl (sweepStep now) acc) := by
  intro l
  induction l with
  | nil => exact fun acc _ hf => hf
  | cons e rest ih =>
    intro acc hl hf
    simp only [List.foldl_cons]
    exact ih _ (fun x hx => hl x (List.mem_cons_of_mem e hx))
      (sweepStep_preserve_pre (hl e (List.mem_cons_self e rest)) hf)

theorem foldl_preserve_post {now : ℕ} {sid : String} {h c0 : ℕ} :
    ∀ (l : List (String × Session)) (acc : GatewayState),
      postFacts sid h c0 acc →
      postFacts sid h c0 (l.foldl (sweepStep now) acc) := by
  intro l
  induction l with
  | nil => exact fun acc hf => hf
  | cons e rest ih =>
    intro acc hf
    simp only [List.foldl_cons]
    exact ih _ (sweepStep_preserve_post hf)

end AuraVoice

/-! ## Claim theorems -/

/-- C4: every output of the PCM encoder is `round(clamp(x,-1,1) * 32767)`,
lies in `[-32767, 32767]`, and saturates (rather than wraps) at `32767` for
`x > 1` and at `-32767` for `x < -1`. -/
theorem C4_pcm_saturation (x : ℚ) :
    AuraVoice.convertSampleToInt16 x =
      AuraVoice.jsRound (max (-1) (min 1 x) * 32767) ∧
    (-32767 ≤ AuraVoice.convertSampleToInt16 x ∧
      AuraVoice.convertSampleToInt16 x ≤ 32767) ∧
    (1 < x → AuraVoice.convertSampleToInt16 x = 32767) ∧
    (x < -1 → AuraVoice.convertSampleToInt16 x = -32767) := by
  have hclamp_le : max (-1) (min 1 x) * 32767 ≤ ((32767 : ℤ) : ℚ) := by
    have h1 : max (-1 : ℚ) (min 1 x) ≤ 1 := by
      apply max_le (by norm_num) (min_le_left _ _)
    push_cast
    nlinarith
  have hclamp_ge : ((-32767 : ℤ) : ℚ) ≤ max (-1) (min 1 x) * 32767 := by
    have h1 : (-1 : ℚ) ≤ max (-1) (min 1 x) := le_max_left _ _
    push_cast
    nlinarith
  refine ⟨rfl, ⟨AuraVoice.le_jsRound hclamp_ge, AuraVoice.jsRound_le hclamp_le⟩, ?_, ?_⟩
  · intro hx
    have hmin : min 1 x = 1 := min_eq_left hx.le
    have hmax : max (-1 : ℚ) (1 : ℚ) = 1 := by norm_num
    simp only [AuraVoice.convertSampleToInt16, hmin, hmax]
    norm_num [AuraVoice.jsRound]
  · intro hx
    have hmin : min 1 x = x := min_eq_right (by linarith)
    have hmax : max (-1 : ℚ) x = -1 := max_eq_left hx.le
    simp only [AuraVoice.convertSampleToInt16, hmin, hmax]
    norm_num [AuraVoice.jsRound]

/-- Witness for C4 at concrete inputs `2` and `-2`. -/
theorem C4_pcm_saturation_witness :
    AuraVoice.convertSampleToInt16 2 = 32767 ∧
    AuraVoice.convertSampleToInt16 (-2) = -32767 := by
  exact ⟨(C4_pcm_saturation 2).2.2.1 (by norm_num),
    (C4_pcm_saturation (-2)).2.2.2 (by norm_num)⟩

/-- C10: `resampleAudio` is total and in-bounds for positive sample rates.
A zero-length input yields a zero-length output; the output has exactly
`resampleLength` entries in the resampling branch; and for every output index
`i` below that length, the source index `floor(i * ratio)` that the code reads
is nonnegative and strictly less than the input length (the interpolation
branch additionally reads `index + 1` only under its explicit
`index + 1 < length` guard). -/
theorem C10_resample_inbounds (audioData : List ℚ) (src tgt : ℚ)
    (hs : 0 < src) (ht : 0 < tgt) :
    AuraVoice.resampleAudio [] src tgt = [] ∧
    (AuraVoice.resampleAudio audioData src tgt).length =
      (if src = tgt then audioData.length
       else AuraVoice.resampleLength audioData.length src tgt) ∧
    (∀ i, i < AuraVoice.resampleLength audioData.length src tgt →
      0 ≤ AuraVoice.resampleIndex i src tgt ∧
      AuraVoice.resampleIndex i src tgt < (audioData.length : ℤ)) := by
  have hr : 0 < AuraVoice.resampleFactor src tgt := div_pos hs ht
  refine ⟨?_, ?_, ?_⟩
  · unfold AuraVoice.resampleAudio
    by_cases h : src = tgt
    · simp [h]
    · have : AuraVoice.resampleLength 0 src tgt = 0 := by
        unfold AuraVoice.resampleLength AuraVoice.jsRound
        norm_num
      simp [h, this]
  · by_cases h : src = tgt
    · simp [AuraVoice.resampleAudio, h]
    · rw [AuraVoice.resampleAudio, if_neg h, if_neg h]
      simp
  · intro i hi
    constructor
    · exact Int.floor_nonneg.mpr (by positivity)
    · exact Int.floor_lt.mpr (by
        have := AuraVoice.resampleLength_pos_step hr hi
        push_cast at this ⊢
        linarith)

/-- Witness for C10: input `[1, 2, 3]` at source rate 2 and target rate 1
gives output length 2, and output index 1 reads source index 2, in bounds. -/
theorem C10_resample_inbounds_witness :
    0 ≤ AuraVoice.resampleIndex 1 2 1 ∧ AuraVoice.resampleIndex 1 2 1 < (3 : ℤ) := by
  have h := (C10_resample_inbounds [1, 2, 3] 2 1 (by norm_num) (by norm_num)).2.2 1
    (by norm_num [AuraVoice.resampleLength, AuraVoice.resampleFactor, AuraVoice.jsRound])
  simpa using h

/-- C3 counterexample: with `energyThresholdMultiplier = 0.5`,
`minSpeechEnergy = 0.01`, `maxSpeechEnergy = 0.5`, the threshold right after
construction is `0.005`, strictly below `minSpeechEnergy` — the code has no
lower clamp, so the claimed bound `threshold >= minSpeechEnergy` fails for
multipliers below 1. -/
theorem C3_counterexample :
    (AuraVoice.initialVADState
        ⟨1/2, 1/100, 1/2, 200, 500, 1/10⟩).currentThreshold = 1/200 ∧
    ¬ ((1 : ℚ)/100 ≤
        (AuraVoice.initialVADState
          ⟨1/2, 1/100, 1/2, 200, 500, 1/10⟩).currentThreshold) := by
  constructor
  · show min ((1 : ℚ)/2) (1/100 * (1/2)) = 1/200
    norm_num [min_def]
  · show ¬ ((1 : ℚ)/100 ≤ min ((1 : ℚ)/2) (1/100 * (1/2)))
    norm_num [min_def]

/-- C3 (amended): every VAD operation — construction, reset, frame
processing, and the periodic noise update — maintains
`currentThreshold = min(maxSpeechEnergy, backgroundNoiseLevel * multiplier)`
together with `backgroundNoiseLevel >= minSpeechEnergy`; there is no lower
clamp on the threshold itself, but whenever the multiplier is at least 1 and
`0 <= minSpeechEnergy <= maxSpeechEnergy` this invariant already implies
`minSpeechEnergy <= currentThreshold <= maxSpeechEnergy`. -/
theorem C3_threshold_invariant (cfg : AuraVoice.VADConfig) :
    AuraVoice.thresholdInvariant cfg (AuraVoice.initialVADState cfg) ∧
    (∀ st e, AuraVoice.thresholdInvariant cfg st →
      AuraVoice.thresholdInvariant cfg (AuraVoice.processEnergyLevel cfg st e)) ∧
    (∀ st, AuraVoice.thresholdInvariant cfg st →
      AuraVoice.thresholdInvariant cfg (AuraVoice.noiseTick cfg st)) ∧
    (∀ st, AuraVoice.thresholdInvariant cfg (AuraVoice.resetVAD cfg st)) ∧
    (∀ st, AuraVoice.thresholdInvariant cfg st →
      0 ≤ cfg.minSpeechEnergy → 1 ≤ cfg.energyThresholdMultiplier →
      cfg.minSpeechEnergy ≤ cfg.maxSpeechEnergy →
      cfg.minSpeechEnergy ≤ st.currentThreshold ∧
        st.currentThreshold ≤ cfg.maxSpeechEnergy) := by
  refine ⟨AuraVoice.inv_initNoiseLevel cfg _,
    fun st e h => AuraVoice.inv_processEnergyLevel cfg st e h,
    fun st h => AuraVoice.inv_noiseTick cfg st h,
    fun st => AuraVoice.inv_resetVAD cfg st,
    fun st h h0 h1 hmm => ?_⟩
  obtain ⟨hth, hbg⟩ := h
  constructor
  · rw [hth]
    have hb0 : 0 ≤ st.backgroundNoiseLevel := le_trans h0 hbg
    have : cfg.minSpeechEnergy ≤ st.backgroundNoiseLevel * cfg.energyThresholdMultiplier := by
      nlinarith
    exact le_min hmm this
  · rw [hth]
    exact min_le_left _ _

/-- Witness for C3 (amended) at the default configuration: the invariant
holds after construction and yields the bounds `0.01 <= threshold <= 0.5`. -/
theorem C3_threshold_invariant_witness :
    (0 : ℚ)/100 ≤ (AuraVoice.initialVADState AuraVoice.DEFAULT_VAD_CONFIG).currentThreshold ∧
    AuraVoice.DEFAULT_VAD_CONFIG.minSpeechEnergy ≤
      (AuraVoice.initialVADState AuraVoice.DEFAULT_VAD_CONFIG).currentThreshold ∧
    (AuraVoice.initialVADState AuraVoice.DEFAULT_VAD_CONFIG).currentThreshold ≤
      AuraVoice.DEFAULT_VAD_CONFIG.maxSpeechEnergy := by
  have h := (C3_threshold_invariant AuraVoice.DEFAULT_VAD_CONFIG).2.2.2.2
    (AuraVoice.initialVADState AuraVoice.DEFAULT_VAD_CONFIG)
    (C3_threshold_invariant AuraVoice.DEFAULT_VAD_CONFIG).1
    (by norm_num [AuraVoice.DEFAULT_VAD_CONFIG])
    (by norm_num [AuraVoice.DEFAULT_VAD_CONFIG])
    (by norm_num [AuraVoice.DEFAULT_VAD_CONFIG])
  refine ⟨?_, h.1, h.2⟩
  calc (0 : ℚ)/100 ≤ AuraVoice.DEFAULT_VAD_CONFIG.minSpeechEnergy := by
        norm_num [AuraVoice.DEFAULT_VAD_CONFIG]
    _ ≤ _ := h.1

/-- C7: while the detector is in the SPEECH state, the background noise
estimate is invariant: neither processing a frame of any energy value nor a
periodic noise-update tick changes `backgroundNoiseLevel`. -/
theorem C7_noise_frozen_during_speech (cfg : AuraVoice.VADConfig)
    (st : AuraVoice.VADState) (e : ℚ) (hsp : st.isSpeechDetected = true) :
    (AuraVoice.processEnergyLevel cfg st e).backgroundNoiseLevel =
      st.backgroundNoiseLevel ∧
    (AuraVoice.noiseTick cfg st).backgroundNoiseLevel = st.backgroundNoiseLevel := by
  constructor
  · unfold AuraVoice.processEnergyLevel
    split
    · rfl
    · dsimp only
      split
      · unfold AuraVoice.handleEnergyAboveThreshold
        dsimp only
        split
        · rename_i hguard
          exfalso
          have := hguard.1
        
          simp [AuraVoice.updateEnergyHistory, hsp] at this
        · simp [AuraVoice.updateEnergyHistory]
      · unfold AuraVoice.handleEnergyBelowThreshold
        dsimp only
        split
        · split
          · rw [AuraVoice.endSpeech_bg]
            simp [AuraVoice.updateEnergyHistory]
          · simp [AuraVoice.updateEnergyHistory]
        · rename_i hguard
          exfalso
          simp [AuraVoice.updateEnergyHistory, hsp] at hguard
  · unfold AuraVoice.noiseTick
    rw [if_neg]
    simp [hsp]

/-- Witness for C7: a concrete SPEECH-state detector processing a frame of
energy `0.3` keeps its background noise level `0.01`. -/
theorem C7_noise_frozen_during_speech_witness :
    (AuraVoice.processEnergyLevel AuraVoice.DEFAULT_VAD_CONFIG
        ⟨true, true, 1/100, 1/50, 0, 0, [], []⟩ (3/10)).backgroundNoiseLevel = 1/100 ∧
    (AuraVoice.noiseTick AuraVoice.DEFAULT_VAD_CONFIG
        ⟨true, true, 1/100, 1/50, 0, 0, [], []⟩).backgroundNoiseLevel = 1/100 := by
  have h := C7_noise_frozen_during_speech AuraVoice.DEFAULT_VAD_CONFIG
    ⟨true, true, 1/100, 1/50, 0, 0, [], []⟩ (3/10) rfl
  exact ⟨h.1, h.2⟩

/-- C8: from an IDLE started state with a zero above-counter,
`speechStartThresholdTime = 200` ms, and a threshold strictly below `0.5`,
processing ten consecutive frames of energy `0.5` emits exactly one
`speechStart`, during the 10th frame: after each of frames 1..9 the
`speechStart` count is unchanged, and after frame 10 it has grown by exactly
one and the detector is in SPEECH. -/
theorem C8_speech_start_tenth_frame (cfg : AuraVoice.VADConfig)
    (st : AuraVoice.VADState)
    (hact : st.isActive = true) (hsp : st.isSpeechDetected = false)
    (habove : st.consecutiveFramesAboveThreshold = 0)
    (htime : cfg.speechStartThresholdTime = 200)
    (hth : st.currentThreshold < 1/2) :
    (∀ k, k ≤ 9 →
      AuraVoice.countSpeechStart
        ((fun s => AuraVoice.processEnergyLevel cfg s (1/2))^[k] st) =
        AuraVoice.countSpeechStart st) ∧
    AuraVoice.countSpeechStart
      ((fun s => AuraVoice.processEnergyLevel cfg s (1/2))^[10] st) =
      AuraVoice.countSpeechStart st + 1 ∧
    ((fun s => AuraVoice.processEnergyLevel cfg s (1/2))^[10] st).isSpeechDetected = true := by
  have hrun := AuraVoice.C8_run cfg st hact hsp habove htime hth
  refine ⟨fun k hk => (hrun k hk).2.2.2.2, ?_, ?_⟩ <;>
  · obtain ⟨h1, h2, h3, h4, h5⟩ := hrun 9 le_rfl
    have h10 : (10 : ℕ) = 9 + 1 := rfl
    rw [h10, Function.iterate_succ_apply']
    have hstep := AuraVoice.C8_step cfg _ h1 h2 htime (h4 ▸ hth.le)
    obtain ⟨f1, f2⟩ := hstep.2 (by omega)
    first
    | (rw [f2, h5])
    | exact f1

/-- Witness for C8 at a concrete started IDLE state under the default
configuration: the `speechStart` count is 0 after 9 frames and 1 after 10. -/
theorem C8_speech_start_tenth_frame_witness :
    AuraVoice.countSpeechStart
      ((fun s => AuraVoice.processEnergyLevel AuraVoice.DEFAULT_VAD_CONFIG s (1/2))^[10]
        ⟨true, false, 1/100, 1/50, 0, 0, [], []⟩) = 1 ∧
    AuraVoice.countSpeechStart
      ((fun s => AuraVoice.processEnergyLevel AuraVoice.DEFAULT_VAD_CONFIG s (1/2))^[9]
        ⟨true, false, 1/100, 1/50, 0, 0, [], []⟩) = 0 := by
  have h := C8_speech_start_tenth_frame AuraVoice.DEFAULT_VAD_CONFIG
    ⟨true, false, 1/100, 1/50, 0, 0, [], []⟩ rfl rfl rfl rfl (by norm_num)
  have hzero : AuraVoice.countSpeechStart
      (⟨true, false, 1/100, 1/50, 0, 0, [], []⟩ : AuraVoice.VADState) = 0 := rfl
  exact ⟨by rw [h.2.1, hzero], by rw [h.1 9 le_rfl, hzero]⟩

/-- C2: with `reconnectBaseDelay = 1000`, the delay scheduled before
reconnect attempt `n` (for `1 <= n <= maxReconnectAttempts`) is
`min(1000 * 2^(n-1), maxReconnectDelay)`; under the default configuration
the delays for attempts 1..5 are 1000, 2000, 4000, 8000, 16000; and once the
attempt counter has reached `maxReconnectAttempts`, `scheduleReconnect`
emits the terminal error and schedules no further attempt. -/
theorem C2_client_backoff (cfg : AuraVoice.AudioStreamerConfig)
    (hbase : cfg.reconnectBaseDelay = 1000) :
    (∀ n, 1 ≤ n → n ≤ cfg.maxReconnectAttempts →
      AuraVoice.scheduleReconnect cfg (n - 1) =
        AuraVoice.ReconnectDecision.retry n
          (min (1000 * 2 ^ (n - 1)) cfg.maxReconnectDelay)) ∧
    ((List.range 5).map (AuraVoice.scheduleReconnect AuraVoice.DEFAULT_STREAMER_CONFIG) =
      [AuraVoice.ReconnectDecision.retry 1 1000,
       AuraVoice.ReconnectDecision.retry 2 2000,
       AuraVoice.ReconnectDecision.retry 3 4000,
       AuraVoice.ReconnectDecision.retry 4 8000,
       AuraVoice.ReconnectDecision.retry 5 16000]) ∧
    (∀ a, cfg.maxReconnectAttempts ≤ a →
      AuraVoice.scheduleReconnect cfg a = AuraVoice.ReconnectDecision.giveUp a) := by
  refine ⟨?_, by decide, ?_⟩
  · intro n h1 hn
    unfold AuraVoice.scheduleReconnect
    rw [if_neg (by omega), hbase]
    congr 1
    omega
  · intro a ha
    unfold AuraVoice.scheduleReconnect
    rw [if_pos ha]

/-- Witness for C2: attempt 5 under the default configuration is scheduled
after `min(16000, 30000)` ms, and a 6th call gives up. -/
theorem C2_client_backoff_witness :
    AuraVoice.scheduleReconnect AuraVoice.DEFAULT_STREAMER_CONFIG 4 =
      AuraVoice.ReconnectDecision.retry 5
        (min (1000 * 2 ^ 4) AuraVoice.DEFAULT_STREAMER_CONFIG.maxReconnectDelay) ∧
    AuraVoice.scheduleReconnect AuraVoice.DEFAULT_STREAMER_CONFIG 5 =
      AuraVoice.ReconnectDecision.giveUp 5 := by
  exact ⟨(C2_client_backoff AuraVoice.DEFAULT_STREAMER_CONFIG rfl).1 5
      (by norm_num) (by decide),
    (C2_client_backoff AuraVoice.DEFAULT_STREAMER_CONFIG rfl).2.2 5 (by decide)⟩

/-- C1 counterexample: the server's `handleReconnection` applies **no** delay
cap, so under equal base (1000 ms), equal max attempts (5) and a shared cap of
5000 ms, attempt 4 is scheduled after 8000 ms on the server but after
`min(8000, 5000) = 5000` ms by the client — the sequences differ attempt for
attempt, refuting the claimed equality for every equal cap. -/
theorem C1_counterexample :
    AuraVoice.handleReconnection 3 = AuraVoice.ReconnectDecision.retry 4 8000 ∧
    AuraVoice.scheduleReconnect ⟨5, 1000, 5000, 100⟩ 3 =
      AuraVoice.ReconnectDecision.retry 4 5000 ∧
    AuraVoice.handleReconnection 3 ≠
      AuraVoice.scheduleReconnect ⟨5, 1000, 5000, 100⟩ 3 := by
  refine ⟨by decide, by decide, by decide⟩

/-- C1 (amended): the server's `handleReconnection` delay before retry `n`
(attempt counter `a = n - 1`) is the uncapped `1000 * 2^a`; it agrees with
the client's `scheduleReconnect` attempt for attempt under equal base and
max-attempt parameters whenever the exponential term does not exceed the
client's `maxReconnectDelay` cap — in particular for every attempt under the
client's default 30000 ms cap — and both sides give up identically once the
counter reaches the shared maximum of 5. -/
theorem C1_backoff_refinement (cfg : AuraVoice.AudioStreamerConfig)
    (hbase : cfg.reconnectBaseDelay = AuraVoice.RECONNECT_BASE_DELAY_MS)
    (hmax : cfg.maxReconnectAttempts = AuraVoice.RECONNECT_MAX_ATTEMPTS) :
    (∀ a, a < AuraVoice.RECONNECT_MAX_ATTEMPTS →
      AuraVoice.handleReconnection a =
        AuraVoice.ReconnectDecision.retry (a + 1) (1000 * 2 ^ a)) ∧
    (∀ a, a < AuraVoice.RECONNECT_MAX_ATTEMPTS →
      1000 * 2 ^ a ≤ cfg.maxReconnectDelay →
      AuraVoice.scheduleReconnect cfg a = AuraVoice.handleReconnection a) ∧
    (∀ a, AuraVoice.RECONNECT_MAX_ATTEMPTS ≤ a →
      AuraVoice.handleReconnection a = AuraVoice.ReconnectDecision.giveUp a ∧
      AuraVoice.scheduleReconnect cfg a = AuraVoice.ReconnectDecision.giveUp a) ∧
    (∀ a, a < 5 →
      AuraVoice.scheduleReconnect AuraVoice.DEFAULT_STREAMER_CONFIG a =
        AuraVoice.handleReconnection a) := by
  have hM : AuraVoice.RECONNECT_MAX_ATTEMPTS = 5 := rfl
  refine ⟨?_, ?_, ?_, ?_⟩
  · intro a ha
    unfold AuraVoice.handleReconnection
    rw [if_neg (by omega)]
    rfl
  · intro a ha hcap
    unfold AuraVoice.scheduleReconnect AuraVoice.handleReconnection
    rw [if_neg (by omega), if_neg (by omega), hbase]
    have : min (AuraVoice.RECONNECT_BASE_DELAY_MS * 2 ^ a) cfg.maxReconnectDelay =
        AuraVoice.RECONNECT_BASE_DELAY_MS * 2 ^ a := by
      apply min_eq_left
      exact hcap
    rw [this]
  · intro a ha
    constructor
    · unfold AuraVoice.handleReconnection
      rw [if_pos ha]
    · unfold AuraVoice.scheduleReconnect
      rw [if_pos (by omega)]
  · intro a ha
    interval_cases a <;> decide

/-- Witness for C1 (amended) at attempt counter 4 under the default client
configuration: both sides schedule attempt 5 after 16000 ms. -/
theorem C1_backoff_refinement_witness :
    AuraVoice.scheduleReconnect AuraVoice.DEFAULT_STREAMER_CONFIG 4 =
      AuraVoice.handleReconnection 4 ∧
    AuraVoice.handleReconnection 4 = AuraVoice.ReconnectDecision.retry 5 (1000 * 2 ^ 4) := by
  exact ⟨(C1_backoff_refinement AuraVoice.DEFAULT_STREAMER_CONFIG rfl rfl).2.1 4
      (by decide) (by decide),
    (C1_backoff_refinement AuraVoice.DEFAULT_STREAMER_CONFIG rfl rfl).1 4 (by decide)⟩

/-- C5: for every capacity `N >= 1`, a queue built from the empty queue by
any sequence of enqueues never exceeds length `N`; and enqueueing `N + 1`
chunks into an initially empty queue leaves exactly the last `N` chunks in
their original relative order — only the oldest chunk has been evicted. -/
theorem C5_queue_bounded_eviction (N : ℕ) (hN : 1 ≤ N) :
    (∀ cs : List ℕ, (cs.foldl (AuraVoice.queueAudioChunk N) []).length ≤ N) ∧
    (∀ cs : List ℕ, cs.length = N + 1 →
      cs.foldl (AuraVoice.queueAudioChunk N) [] = cs.drop 1) := by
  constructor
  · have hgen : ∀ (cs q : List ℕ), q.length ≤ N →
        (cs.foldl (AuraVoice.queueAudioChunk N) q).length ≤ N := by
      intro cs
      induction cs with
      | nil => intro q hq; simpa
      | cons c rest ih =>
        intro q hq
        simp only [List.foldl_cons]
        exact ih _ (AuraVoice.queueAudioChunk_length N hN q c hq)
    intro cs
    exact hgen cs [] (by simp)
  · intro cs hlen
    have hne : cs ≠ [] := by
      intro h
      rw [h] at hlen
      simp at hlen
    have hsplit : cs.dropLast ++ [cs.getLast hne] = cs := List.dropLast_append_getLast hne
    have hdl : cs.dropLast.length = N := by
      have := List.length_dropLast cs
      omega
    calc cs.foldl (AuraVoice.queueAudioChunk N) []
        = (cs.dropLast ++ [cs.getLast hne]).foldl (AuraVoice.queueAudioChunk N) [] := by
          rw [hsplit]
      _ = AuraVoice.queueAudioChunk N
            (cs.dropLast.foldl (AuraVoice.queueAudioChunk N) []) (cs.getLast hne) := by
          rw [List.foldl_append]
          simp
      _ = AuraVoice.queueAudioChunk N cs.dropLast (cs.getLast hne) := by
          rw [AuraVoice.queueAudioChunk_fill N cs.dropLast [] (by simp [hdl])]
          simp
      _ = cs.dropLast.drop 1 ++ [cs.getLast hne] := by
          unfold AuraVoice.queueAudioChunk
          rw [if_pos (by omega)]
      _ = cs.drop 1 := by
          conv_rhs => rw [← hsplit]
          rw [List.drop_append_eq_append_drop]
          congr 1
          rw [show 1 - cs.dropLast.length = 0 by omega]
          rfl

/-- Witness for C5 at capacity 2: enqueueing chunks 10, 20, 30 retains
exactly `[20, 30]`. -/
theorem C5_queue_bounded_eviction_witness :
    [10, 20, 30].foldl (AuraVoice.queueAudioChunk 2) [] = [20, 30] ∧
    ([10, 20, 30].foldl (AuraVoice.queueAudioChunk 2) []).length ≤ 2 := by
  constructor
  · have h := (C5_queue_bounded_eviction 2 (by norm_num)).2 [10, 20, 30] (by decide)
    simpa using h
  · exact (C5_queue_bounded_eviction 2 (by norm_num)).1 [10, 20, 30]

/-- C9: the client transport never emits `reconnected`: on every connection
open — including opens that follow reconnection attempts —
`handleConnectionOpen` zeroes the attempt counter before testing the
`reconnectAttempts > 0` guard, so the only event it appends is `open` and
the `reconnected` count of the log never changes. -/
theorem C9_reconnected_never_emitted (st : AuraVoice.StreamerState) :
    (AuraVoice.handleConnectionOpen st).reconnectAttempts = 0 ∧
    (AuraVoice.handleConnectionOpen st).events =
      (AuraVoice.processQueue
        { st with isConnected := true, reconnectAttempts := 0 }).events ++
        [AuraVoice.StreamerEvent.openEvt] ∧
    (AuraVoice.handleConnectionOpen st).events.count
        AuraVoice.StreamerEvent.reconnectedEvt =
      st.events.count AuraVoice.StreamerEvent.reconnectedEvt := by
  have hq : (AuraVoice.processQueue
      { st with isConnected := true, reconnectAttempts := 0 }).events = st.events := by
    unfold AuraVoice.processQueue
    split <;> rfl
  have hr : (AuraVoice.processQueue
      { st with isConnected := true, reconnectAttempts := 0 }).reconnectAttempts = 0 := by
    unfold AuraVoice.processQueue
    split <;> rfl
  constructor
  · unfold AuraVoice.handleConnectionOpen
    dsimp only
    rw [if_neg (by simp [hr])]
    simpa using hr
  constructor
  · unfold AuraVoice.handleConnectionOpen
    dsimp only
    rw [if_neg (by simp [hr])]
  · unfold AuraVoice.handleConnectionOpen
    dsimp only
    rw [if_neg (by simp [hr])]
    simp [hq, List.count_append]

/-- C6: at a cleanup sweep tick at time `now`, every session whose
`expiresAt` is strictly less than `now` (holding an upstream handle `h` that
no other session shares) is removed from the session registry and from the
handle map, and `close()` is invoked on `h` exactly once — the sweep adds
exactly one `h` entry to the close log, and a subsequent `closeSession` on
the same id (a second close path) is a no-op, so the handle is closed
neither zero times nor twice. -/
theorem C6_cleanup_close_exactly_once (st : AuraVoice.GatewayState)
    (now now2 : ℕ) (sid : String) (s : AuraVoice.Session) (h : ℕ)
    (hsess : AuraVoice.lookupA st.sessions sid = some s)
    (hexp : s.expiresAt < now)
    (hgem : AuraVoice.lookupA st.geminiSessions sid = some h)
    (hnodup : (st.geminiSessions.map Prod.snd).Nodup) :
    AuraVoice.lookupA (AuraVoice.cleanupExpiredSessions st now).sessions sid = none ∧
    AuraVoice.lookupA
      (AuraVoice.cleanupExpiredSessions st now).geminiSessions sid = none ∧
    (AuraVoice.cleanupExpiredSessions st now).closeCalls.count h =
      st.closeCalls.count h + 1 ∧
    AuraVoice.closeSession (AuraVoice.cleanupExpiredSessions st now) sid now2 =
      AuraVoice.cleanupExpiredSessions st now := by
  obtain ⟨pre, post, hdecomp, hpre⟩ := AuraVoice.lookupA_split hsess
  have havoid := AuraVoice.gemAvoids_of_nodup hnodup hgem
  have hinit : AuraVoice.preFacts sid s h (st.closeCalls.count h) st :=
    ⟨hsess, hgem, rfl, havoid⟩
  have hres : AuraVoice.postFacts sid h (st.closeCalls.count h + 1)
      (AuraVoice.cleanupExpiredSessions st now) := by
    unfold AuraVoice.cleanupExpiredSessions
    rw [hdecomp, List.foldl_append, List.foldl_cons]
    apply AuraVoice.foldl_preserve_post
    apply AuraVoice.sweepStep_fire hexp
    exact AuraVoice.foldl_preserve_pre pre st hpre hinit
  obtain ⟨r1, r2, r3, r4⟩ := hres
  refine ⟨r1, r2, r3, ?_⟩
  unfold AuraVoice.closeSession
  rw [r1]

/-- Witness for C6: a one-session registry whose session expired at time 5,
swept at time 10; the session is gone and its handle 7 is closed once. -/
theorem C6_cleanup_close_exactly_once_witness :
    AuraVoice.lookupA
      (AuraVoice.cleanupExpiredSessions
        ⟨[("a", ⟨AuraVoice.SessionState.ACTIVE, 0, 0, 5⟩)], [("a", 7)], [("a", 0)], []⟩
        10).sessions "a" = none ∧
    (AuraVoice.cleanupExpiredSessions
        ⟨[("a", ⟨AuraVoice.SessionState.ACTIVE, 0, 0, 5⟩)], [("a", 7)], [("a", 0)], []⟩
        10).closeCalls.count 7 = 1 := by
  have h := C6_cleanup_close_exactly_once
    ⟨[("a", ⟨AuraVoice.SessionState.ACTIVE, 0, 0, 5⟩)], [("a", 7)], [("a", 0)], []⟩
    10 11 "a" ⟨AuraVoice.SessionState.ACTIVE, 0, 0, 5⟩ 7
    (by simp [AuraVoice.lookupA]) (by norm_num) (by simp [AuraVoice.lookupA]) (by simp)
  exact ⟨h.1, by simpa using h.2.2.1⟩
